import Mathlib

/-
Verification of the configuration store engine in `src/config_manager.py`
(class `ConfigManager`).

Embedding conventions:
* A configuration tree (Python JSON data: nested dicts, lists, strings,
  ints, bools) is modelled by the mutual inductive family `Value` /
  `VList` / `VDict`.  `VDict` is an insertion-ordered association list,
  mirroring a Python dict; only duplicate-free instances correspond to
  actual Python dicts.  JSON floats and null are omitted: no claimed
  behaviour involves them.
* Python exceptions are modelled by `PyErr`; fallible Python operations
  return `Except PyErr`.  `pyIn`, `pyIndex`, `pyEqV` model the Python
  `in` operator, string-keyed subscription `x[k]`, and `==` (where
  `True == 1` and `False == 0`).
* The file surface is modelled at the parsed-document level: a store
  state holds, per file name, the `Value` encoded by the JSON bytes of the file.
  `json.dump`/`json.load` are the Python standard library and are
  modelled as exact inverses at this boundary; `json.dumps`/`yaml.dump`
  (used only to render export strings) are modelled by simple
  serializers whose exact rendering no claim relies on.
* Destructive file operations additionally emit an event trace (`Ev`)
  recording write order inside one call.
-/

inductive PyErr where
  | keyError
  | typeError
  | fileNotFound
  | valueError
  | attributeError
deriving DecidableEq, Repr

mutual
/-- A Python/JSON value as stored in a configuration tree. -/
inductive Value where
  | vstr (s : String)
  | vint (n : Int)
  | vbool (b : Bool)
  | vlist (xs : VList)
  | vdict (es : VDict)
deriving DecidableEq
/-- A Python list of `Value`s. -/
inductive VList where
  | nil
  | cons (x : Value) (xs : VList)
deriving DecidableEq
/-- A Python dict with string keys, in insertion order. -/
inductive VDict where
  | nil
  | cons (k : String) (v : Value) (es : VDict)
deriving DecidableEq
end

/-- Conversion helper so trees can be written as list literals. -/
def VList.ofList : List Value → VList
  | [] => .nil
  | x :: xs => .cons x (VList.ofList xs)

/-- Conversion helper so trees can be written as list literals. -/
def VDict.ofList : List (String × Value) → VDict
  | [] => .nil
  | (k, v) :: es => .cons k v (VDict.ofList es)

/-- Dict entry lookup by key (first occurrence), i.e. Python `d[k]` when present. -/
def VDict.lookup (k : String) : VDict → Option Value
  | .nil => none
  | .cons k₁ v rest => if k₁ = k then some v else VDict.lookup k rest

/-- Number of entries, i.e. Python `len(d)` for a duplicate-free dict. -/
def VDict.length : VDict → Nat
  | .nil => 0
  | .cons _ _ rest => 1 + VDict.length rest

def VDict.containsKey (d : VDict) (k : String) : Bool := (d.lookup k).isSome

/-- The key list of a dict, in order. -/
def VDict.keys : VDict → List String
  | .nil => []
  | .cons k _ rest => k :: VDict.keys rest

mutual
/-- Python `==` on values: `True == 1`, `False == 0`, dicts compare by
key set and per-key equality, lists pointwise. -/
def pyEqV : Value → Value → Bool
  | .vint m, .vint n => m == n
  | .vint m, .vbool b => m == (if b then 1 else 0)
  | .vbool b, .vint n => (if b then 1 else 0) == n
  | .vbool a, .vbool b => a == b
  | .vstr s, .vstr t => s == t
  | .vlist xs, .vlist ys => pyEqL xs ys
  | .vdict xs, .vdict ys => VDict.length xs == VDict.length ys && pyEqD xs ys
  | _, _ => false
def pyEqL : VList → VList → Bool
  | .nil, .nil => true
  | .cons x xs, .cons y ys => pyEqV x y && pyEqL xs ys
  | _, _ => false
def pyEqD : VDict → VDict → Bool
  | .nil, _ => true
  | .cons k v rest, ys =>
    (match ys.lookup k with
     | some w => pyEqV v w
     | none => false) && pyEqD rest ys
end

/-- Membership of one character list inside another (Python substring test). -/
def charsWithin (needle : List Char) : List Char → Bool
  | [] => needle.isPrefixOf []
  | c :: cs => needle.isPrefixOf (c :: cs) || charsWithin needle cs

/-- Python membership of an element in a list, using Python `==`. -/
def VList.pyContains (x : Value) : VList → Bool
  | .nil => false
  | .cons y ys => pyEqV x y || VList.pyContains x ys

/-- Python `k in v` for a string `k`: key test on dicts, substring test on
strings, element test on lists, `TypeError` on ints and bools. -/
def pyIn (k : String) : Value → Except PyErr Bool
  | .vdict es => .ok (es.containsKey k)
  | .vstr s => .ok (charsWithin k.data s.data)
  | .vlist xs => .ok (xs.pyContains (.vstr k))
  | .vint _ => .error .typeError
  | .vbool _ => .error .typeError

/-- Python `v[k]` for a string key `k`: dict lookup (`KeyError` when
absent), `TypeError` on every non-dict. -/
def pyIndex (v : Value) (k : String) : Except PyErr Value :=
  match v with
  | .vdict es =>
    match es.lookup k with
    | some w => .ok w
    | none => .error .keyError
  | _ => .error .typeError

/-- Python `isinstance(v, int)`; Python bools count as ints. -/
def pyIsInt : Value → Bool
  | .vint _ => true
  | .vbool _ => true
  | _ => false

/-- Python `isinstance(v, bool)`. -/
def pyIsBool : Value → Bool
  | .vbool _ => true
  | _ => false

/-- Python dict assignment `d[k] = v`: overwrite in place, append new keys. -/
def VDict.set (k : String) (v : Value) : VDict → VDict
  | .nil => .cons k v .nil
  | .cons k₁ v₁ rest =>
    if k₁ = k then .cons k v rest else .cons k₁ v₁ (VDict.set k v rest)

def splitDotAux : List Char → List Char → List String
  | [], acc => [String.mk acc.reverse]
  | c :: cs, acc =>
    if c = '.' then String.mk acc.reverse :: splitDotAux cs [] else splitDotAux cs (c :: acc)

/-- Model of Python key-path splitting on the dot character (always a nonempty list). -/
def splitDot (s : String) : List String := splitDotAux s.data []

/-- The descent loop of `get_config_value` over already-split segments:
`for key in keys: value = value[key]`. -/
def getSegs : Value → List String → Except PyErr Value
  | v, [] => .ok v
  | v, k :: ks => do
    let v₁ ← pyIndex v k
    getSegs v₁ ks

/-- The navigation-and-assign portion of `set_config_value` over split
segments: missing intermediates become `{}`; the final segment is
assigned.  A non-dict met along the way raises `TypeError` (Python
raises it from membership, item assignment, or subscription depending
on the type of the intermediate; in all cases before any tree mutation). -/
def setSegs : Value → List String → Value → Except PyErr Value
  | .vdict es, [k], v => .ok (.vdict (es.set k v))
  | _, [_], _ => .error .typeError
  | .vdict es, k :: k₂ :: rest, v =>
    (match es.lookup k with
     | some child => setSegs child (k₂ :: rest) v
     | none => setSegs (.vdict .nil) (k₂ :: rest) v).map
      (fun c => .vdict (es.set k c))
  | _, _ :: _ :: _, _ => .error .typeError
  | _, [], _ => .error .typeError

/-- Decides whether `setSegs` can succeed: the descent must meet only
dicts or missing keys. -/
def canSet : Value → List String → Bool
  | .vdict _, [_] => true
  | .vdict es, k :: k₂ :: rest =>
    (match es.lookup k with
     | some child => canSet child (k₂ :: rest)
     | none => true)
  | _, _ => false

/-- Model of Python `s.startswith(p)`. -/
def pyStartswith (s p : String) : Bool := p.data.isPrefixOf s.data

/-- Model of Python `s.endswith(p)`. -/
def pyEndswith (s p : String) : Bool := p.data.isSuffixOf s.data

/-- Model of Python `s[2:-1]`. -/
def pySlice2m1 (s : String) : String := String.mk ((s.data.drop 2).dropLast)

/-- The string case of `_process_environment_variables.process_dict`:
substitute only when the whole string starts with `${` and ends with
`}`; on an environment miss return the original string. -/
def interpS (lk : String → Option String) (s : String) : String :=
  if pyStartswith s "$\x7b" && pyEndswith s "\x7d" then
    match lk (pySlice2m1 s) with
    | some v => v
    | none => s
  else s

mutual
/-- `_process_environment_variables.process_dict`: rebuild dicts and
lists recursively, transform exact `${NAME}` strings, pass every other
value through. -/
def interpV (lk : String → Option String) : Value → Value
  | .vstr s => .vstr (interpS lk s)
  | .vint n => .vint n
  | .vbool b => .vbool b
  | .vlist xs => .vlist (interpL lk xs)
  | .vdict es => .vdict (interpD lk es)
def interpL (lk : String → Option String) : VList → VList
  | .nil => .nil
  | .cons x xs => .cons (interpV lk x) (interpL lk xs)
def interpD (lk : String → Option String) : VDict → VDict
  | .nil => .nil
  | .cons k v es => .cons k (interpV lk v) (interpD lk es)
end

mutual
/-- `true` when no string anywhere in the value matches the `${...}`
placeholder shape, so interpolation is the identity on it. -/
def placeholderFreeV : Value → Bool
  | .vstr s => !(pyStartswith s "$\x7b" && pyEndswith s "\x7d")
  | .vint _ => true
  | .vbool _ => true
  | .vlist xs => placeholderFreeL xs
  | .vdict es => placeholderFreeD es
def placeholderFreeL : VList → Bool
  | .nil => true
  | .cons x xs => placeholderFreeV x && placeholderFreeL xs
def placeholderFreeD : VDict → Bool
  | .nil => true
  | .cons _ v es => placeholderFreeV v && placeholderFreeD es
end

/-- The fixed `required_structure` table of `validate_config`. -/
def requiredStructure : List (String × List String) :=
  [("database", ["host", "port", "name", "username", "password"]),
   ("api", ["base_url", "timeout", "debug"]),
   ("features", ["payments_enabled", "email_notifications", "logging_level"]),
   ("security", ["jwt_secret", "encryption_key", "ssl_enabled"])]

/-- One iteration of the section loop of `validate_config`: a missing
section contributes one error and skips its key checks; otherwise each
key is tested with `key not in config[section]` (`config[section]`
re-evaluated inside the loop, as in the source). -/
def checkSection (config : Value) (sec : String) (keys : List String) :
    Except PyErr (List String) := do
  let present ← pyIn sec config
  if !present then
    pure ["Missing required section: " ++ sec]
  else
    keys.foldlM (fun acc key => do
      let sect ← pyIndex config sec
      let p ← pyIn key sect
      pure (if p then acc else acc ++ ["Missing required key: " ++ sec ++ "." ++ key])) []

/-- The `database` type check of `validate_config`: when the section is
present and holds a `port` key, its value must be an int (with Python
short-circuit membership tests). -/
def dbProbe (config : Value) : Except PyErr (List String) := do
  let hasDb ← pyIn "database" config
  if hasDb then do
    let db ← pyIndex config "database"
    let hasPort ← pyIn "port" db
    if hasPort then do
      let p ← pyIndex db "port"
      pure (if pyIsInt p then ([] : List String) else ["database.port must be an integer"])
    else pure ([] : List String)
  else pure ([] : List String)

/-- The `api` type checks of `validate_config`: `timeout` must be an int
and `debug` a bool when present. -/
def apiProbe (config : Value) : Except PyErr (List String) := do
  let hasApi ← pyIn "api" config
  if hasApi then do
    let api ← pyIndex config "api"
    let hasT ← pyIn "timeout" api
    let tErr ←
      if hasT then do
        let t ← pyIndex api "timeout"
        pure (if pyIsInt t then ([] : List String) else ["api.timeout must be an integer"])
      else pure ([] : List String)
    let hasD ← pyIn "debug" api
    let dErr ←
      if hasD then do
        let d ← pyIndex api "debug"
        pure (if pyIsBool d then ([] : List String) else ["api.debug must be a boolean"])
      else pure ([] : List String)
    pure (tErr ++ dErr)
  else pure ([] : List String)

/-- The fixed type checks of `validate_config`, database section first. -/
def typeChecks (config : Value) : Except PyErr (List String) := do
  let dbErrs ← dbProbe config
  let apiErrs ← apiProbe config
  pure (dbErrs ++ apiErrs)

/-- The section loop of `validate_config` over the whole
`required_structure` table, accumulating errors in order. -/
def structuralErrors (config : Value) : Except PyErr (List String) :=
  requiredStructure.foldlM (fun acc p => do
      let es ← checkSection config p.1 p.2
      pure (acc ++ es)) []

/-- `validate_config`: structural errors first, then type errors;
valid exactly when the accumulated list is empty.  Python exceptions
raised by the membership/subscription operators propagate. -/
def validateConfig (config : Value) : Except PyErr (Bool × List String) := do
  let structErrs ← structuralErrors config
  let tErrs ← typeChecks config
  let errors := structErrs ++ tErrs
  pure (errors.isEmpty, errors)

/-- One destructive file-surface write, for intra-call ordering claims. -/
inductive Ev where
  | backupWrite (name : String) (content : Value)
  | fileWrite (env : String) (content : Value)
deriving DecidableEq

/-- File-surface read: the parsed document stored under a name. -/
def fsGet (k : String) : List (String × Value) → Option Value
  | [] => none
  | (k₁, v) :: rest => if k₁ = k then some v else fsGet k rest

/-- File-surface write: overwrite an existing name or create it. -/
def fsSet (k : String) (v : Value) : List (String × Value) → List (String × Value)
  | [] => [(k, v)]
  | (k₁, v₁) :: rest => if k₁ = k then (k, v) :: rest else (k₁, v₁) :: fsSet k v rest

/-- The two directories of the store: environment files (keyed by environment
name) and backup files (keyed by backup file name). -/
structure St where
  configs : List (String × Value)
  backups : List (String × Value)
deriving DecidableEq

/-- The backup file name `f"{environment}_backup_{timestamp}.json"`. -/
def backupName (env ts : String) : String := env ++ "_backup_" ++ ts ++ ".json"

/-- `load_config`: `FileNotFoundError` when the environment file is
absent, otherwise parse and run `_process_environment_variables`.
(`json.load` of the stored bytes is modelled as yielding the stored
document, so `ParseError` does not arise at this level.) -/
def loadConfig (st : St) (lk : String → Option String) (env : String) : Except PyErr Value :=
  match fsGet env st.configs with
  | none => .error .fileNotFound
  | some t => .ok (interpV lk t)

/-- `create_backup`: copy the current file of the environment to a
timestamped backup slot; `False` without a write when the environment
has no file. -/
def createBackup (st : St) (env ts : String) : Bool × St × List Ev :=
  match fsGet env st.configs with
  | none => (false, st, [])
  | some c =>
    (true, ⟨st.configs, fsSet (backupName env ts) c st.backups⟩,
     [.backupWrite (backupName env ts) c])

/-- `save_config`: validate first (a validation exception is caught and
yields `False`); if invalid return `False` with no write; else back up
an existing file when requested, then write the tree verbatim. -/
def saveConfig (st : St) (env : String) (config : Value) (createBk : Bool) (ts : String) :
    Bool × St × List Ev :=
  match validateConfig config with
  | .error _ => (false, st, [])
  | .ok (isValid, _) =>
    if !isValid then (false, st, [])
    else
      let p := if createBk && (fsGet env st.configs).isSome then createBackup st env ts
               else (true, st, [])
      (true, ⟨fsSet env config p.2.1.configs, p.2.1.backups⟩, p.2.2 ++ [.fileWrite env config])

/-- `restore_backup`: `False` when the named backup is missing; else
back up the current state, then copy the bytes of the backup (re-read after
the fresh backup, as the source does) over the live file. -/
def restoreBackup (st : St) (env tsRestore tsNow : String) : Bool × St × List Ev :=
  match fsGet (backupName env tsRestore) st.backups with
  | none => (false, st, [])
  | some _ =>
    let r := createBackup st env tsNow
    match fsGet (backupName env tsRestore) r.2.1.backups with
    | some content =>
      (true, ⟨fsSet env content r.2.1.configs, r.2.1.backups⟩,
       r.2.2 ++ [.fileWrite env content])
    | none => (false, r.2.1, r.2.2)

/-- `get_config_value`: load, split the dot-path, descend; `KeyError`
and `FileNotFoundError` are caught and become `None`; every other
exception propagates. -/
def getConfigValue (st : St) (lk : String → Option String) (env kpath : String) :
    Except PyErr (Option Value) :=
  match (do
      let config ← loadConfig st lk env
      getSegs config (splitDot kpath) : Except PyErr Value) with
  | .ok v => .ok (some v)
  | .error .keyError => .ok none
  | .error .fileNotFound => .ok none
  | .error e => .error e

/-- `set_config_value`: load, navigate/assign, save; any exception is
caught and yields `False` with no persistence. -/
def setConfigValue (st : St) (lk : String → Option String) (env kpath : String)
    (v : Value) (ts : String) : Bool × St × List Ev :=
  match (do
      let config ← loadConfig st lk env
      setSegs config (splitDot kpath) v : Except PyErr Value) with
  | .error _ => (false, st, [])
  | .ok config₂ => saveConfig st env config₂ true ts

/-- Path extension in `compare_configs.compare_dicts`:
`current_path = f"{path}.{key}" if path else key`. -/
def joinPath (path k : String) : String := if path = "" then k else path ++ "." ++ k

/-- The `key not in d1` arm of `compare_dicts`, over the keys of the
second tree: a key absent from the first tree is recorded wholesale,
`"MISSING"` on the side of the first tree.  (Keys also present in the first
tree are handled by `diffPass1`.) -/
def diffPass2 : VDict → VDict → String → List (String × (Value × Value))
  | .nil, _, _ => []
  | .cons k w rest, d1, path =>
    (if d1.containsKey k then [] else [(joinPath path k, (.vstr "MISSING", w))])
      ++ diffPass2 rest d1 path

/-- The arms of `compare_dicts` driven by the keys of the first tree: absent
in the second tree → record with `"MISSING"` on the second side; both
dicts → recurse; otherwise record both exactly when Python `!=` holds. -/
def diffPass1 : VDict → VDict → String → List (String × (Value × Value))
  | .nil, _, _ => []
  | .cons k v rest, d2, path =>
    (match d2.lookup k with
     | none => [(joinPath path k, (v, .vstr "MISSING"))]
     | some w =>
       match v, w with
       | .vdict x, .vdict y =>
         diffPass1 x y (joinPath path k) ++ diffPass2 y x (joinPath path k)
       | _, _ => if pyEqV v w then [] else [(joinPath path k, (v, w))])
      ++ diffPass1 rest d2 path

/-- `compare_dicts(d1, d2, path)` as a path-to-entry map, entries as
(value-in-first, value-in-second) pairs; the arbitrary Python set-union
iteration order is fixed as the keys of the first tree then second-only keys,
which is immaterial to the resulting mapping. -/
def compareDicts (d1 d2 : VDict) (path : String) : List (String × (Value × Value)) :=
  diffPass1 d1 d2 path ++ diffPass2 d2 d1 path

/-- `compare_configs`: load both environments and diff; any exception
(including a load failure) is caught and yields the empty mapping. -/
def compareConfigs (st : St) (lk : String → Option String) (env₁ env₂ : String) :
    List (String × (Value × Value)) :=
  match loadConfig st lk env₁, loadConfig st lk env₂ with
  | .ok (.vdict d1), .ok (.vdict d2) => compareDicts d1 d2 ""
  | _, _ => []

/-- Model of Python `s.upper()` (ASCII, as used for config keys). -/
def pyUpper (s : String) : String := String.mk (s.data.map Char.toUpper)

/-- Model of Python `s.lower()` (ASCII, as used for format names). -/
def pyLower (s : String) : String := String.mk (s.data.map Char.toLower)

/-- An apostrophe, for Python `repr` of strings. -/
def aposQ : String := String.singleton (Char.ofNat 39)

mutual
/-- Model of Python `repr` on config values (string quote-escaping
corner cases are not modelled; no claim depends on them). -/
def pyReprV : Value → String
  | .vstr s => aposQ ++ s ++ aposQ
  | .vint n => toString n
  | .vbool b => if b then "True" else "False"
  | .vlist xs => "[" ++ pyReprL xs ++ "]"
  | .vdict es => "\x7b" ++ pyReprD es ++ "\x7d"
def pyReprL : VList → String
  | .nil => ""
  | .cons x .nil => pyReprV x
  | .cons x xs => pyReprV x ++ ", " ++ pyReprL xs
def pyReprD : VDict → String
  | .nil => ""
  | .cons k v .nil => aposQ ++ k ++ aposQ ++ ": " ++ pyReprV v
  | .cons k v es => aposQ ++ k ++ aposQ ++ ": " ++ pyReprV v ++ ", " ++ pyReprD es
end

/-- Model of Python `str(v)` (used by the f-string in `flatten_dict`). -/
def pyStr : Value → String
  | .vstr s => s
  | v => pyReprV v

/-- `export_config.flatten_dict`: uppercase each key, descend into dicts
extending the prefix with `_`, emit `PREFIX_KEY=value` at leaves. -/
def flattenDict (pre : String) : VDict → List String
  | .nil => []
  | .cons k v rest =>
    (match v with
     | .vdict inner => flattenDict (pre ++ pyUpper k ++ "_") inner
     | _ => [pre ++ pyUpper k ++ "=" ++ pyStr v])
      ++ flattenDict pre rest

def jsonEscChar (c : Char) : List Char :=
  if c = '"' then ['\\', '"'] else if c = '\\' then ['\\', '\\'] else [c]

def jsonEscape (s : String) : String := String.mk ((s.data.map jsonEscChar).flatten)

mutual
/-- Model of `json.dumps(config, indent=4)` (compact rendering; the
exact indentation is outside every claim). -/
def jsonDumpsV : Value → String
  | .vstr s => "\"" ++ jsonEscape s ++ "\""
  | .vint n => toString n
  | .vbool b => if b then "true" else "false"
  | .vlist xs => "[" ++ jsonDumpsL xs ++ "]"
  | .vdict es => "\x7b" ++ jsonDumpsD es ++ "\x7d"
def jsonDumpsL : VList → String
  | .nil => ""
  | .cons x .nil => jsonDumpsV x
  | .cons x xs => jsonDumpsV x ++ ", " ++ jsonDumpsL xs
def jsonDumpsD : VDict → String
  | .nil => ""
  | .cons k v .nil => "\"" ++ jsonEscape k ++ "\": " ++ jsonDumpsV v
  | .cons k v es => "\"" ++ jsonEscape k ++ "\": " ++ jsonDumpsV v ++ ", " ++ jsonDumpsD es
end

mutual
/-- Model of `yaml.dump(config, default_flow_style=False)` (simplified
block rendering; the exact format is outside every claim). -/
def yamlV : Value → String
  | .vstr s => s
  | .vint n => toString n
  | .vbool b => if b then "true" else "false"
  | .vlist xs => "[" ++ yamlL xs ++ "]"
  | .vdict es => yamlD es
def yamlL : VList → String
  | .nil => ""
  | .cons x .nil => yamlV x
  | .cons x xs => yamlV x ++ ", " ++ yamlL xs
def yamlD : VDict → String
  | .nil => ""
  | .cons k v .nil => k ++ ": " ++ yamlV v
  | .cons k v es => k ++ ": " ++ yamlV v ++ "\n" ++ yamlD es
end

/-- The body of `export_config` inside its `try`: load, then dispatch on
`format.lower()`; unknown formats raise `ValueError`; flattening a
non-dict document raises (`AttributeError` on `.items()`). -/
def exportBody (st : St) (lk : String → Option String) (env fmt : String) :
    Except PyErr String := do
  let config ← loadConfig st lk env
  if pyLower fmt == "json" then pure (jsonDumpsV config)
  else if pyLower fmt == "yaml" then pure (yamlV config)
  else if pyLower fmt == "env" then
    match config with
    | .vdict es => pure (String.intercalate "\n" (flattenDict "" es))
    | _ => .error .attributeError
  else .error .valueError

/-- `export_config`: every exception from the body is caught and the
empty string is returned instead. -/
def exportConfig (st : St) (lk : String → Option String) (env fmt : String) : String :=
  match exportBody st lk env fmt with
  | .ok s => s
  | .error _ => ""

/-- The built-in `development` default of `_initialize_default_configs`. -/
def devConfig : Value := .vdict (.ofList [
  ("database", .vdict (.ofList [
     ("host", .vstr "localhost"), ("port", .vint 5432), ("name", .vstr "myapp_dev"),
     ("username", .vstr "dev_user"), ("password", .vstr "dev_pass"),
     ("pool_size", .vint 5)])),
  ("api", .vdict (.ofList [
     ("base_url", .vstr "https://api.dev.myapp.com"), ("timeout", .vint 30),
     ("debug", .vbool true), ("rate_limit", .vint 1000)])),
  ("features", .vdict (.ofList [
     ("payments_enabled", .vbool false), ("email_notifications", .vbool true),
     ("logging_level", .vstr "DEBUG"), ("cache_enabled", .vbool true)])),
  ("security", .vdict (.ofList [
     ("jwt_secret", .vstr "dev_secret_key"), ("encryption_key", .vstr "dev_encryption_key"),
     ("ssl_enabled", .vbool false)]))])

/-- The built-in `testing` default of `_initialize_default_configs`. -/
def testingConfig : Value := .vdict (.ofList [
  ("database", .vdict (.ofList [
     ("host", .vstr "test-db.myapp.com"), ("port", .vint 5432), ("name", .vstr "myapp_test"),
     ("username", .vstr "test_user"), ("password", .vstr "test_pass"),
     ("pool_size", .vint 3)])),
  ("api", .vdict (.ofList [
     ("base_url", .vstr "https://api.test.myapp.com"), ("timeout", .vint 20),
     ("debug", .vbool true), ("rate_limit", .vint 500)])),
  ("features", .vdict (.ofList [
     ("payments_enabled", .vbool true), ("email_notifications", .vbool false),
     ("logging_level", .vstr "INFO"), ("cache_enabled", .vbool true)])),
  ("security", .vdict (.ofList [
     ("jwt_secret", .vstr "test_secret_key"), ("encryption_key", .vstr "test_encryption_key"),
     ("ssl_enabled", .vbool true)]))])

/-- The built-in `production` default of `_initialize_default_configs`
(secrets held as `${VAR}` placeholders). -/
def productionConfig : Value := .vdict (.ofList [
  ("database", .vdict (.ofList [
     ("host", .vstr "prod-db.myapp.com"), ("port", .vint 5432), ("name", .vstr "myapp_prod"),
     ("username", .vstr "prod_user"), ("password", .vstr "$\x7bDB_PASSWORD\x7d"),
     ("pool_size", .vint 20)])),
  ("api", .vdict (.ofList [
     ("base_url", .vstr "https://api.myapp.com"), ("timeout", .vint 10),
     ("debug", .vbool false), ("rate_limit", .vint 10000)])),
  ("features", .vdict (.ofList [
     ("payments_enabled", .vbool true), ("email_notifications", .vbool true),
     ("logging_level", .vstr "ERROR"), ("cache_enabled", .vbool true)])),
  ("security", .vdict (.ofList [
     ("jwt_secret", .vstr "$\x7bJWT_SECRET\x7d"),
     ("encryption_key", .vstr "$\x7bENCRYPTION_KEY\x7d"),
     ("ssl_enabled", .vbool true)]))])

/-- Key-list well-formedness: no duplicates (Python dicts cannot hold
duplicate keys). -/
def nodupKeys : List String → Bool
  | [] => true
  | k :: ks => !ks.contains k && nodupKeys ks

/-- A key that a dot-path can address unambiguously: nonempty, dot-free. -/
def goodKey (k : String) : Bool := !(k == "") && !(k.data.contains '.')

mutual
/-- Well-formed tree for the diff claim: every dict level has
duplicate-free, nonempty, dot-free keys. -/
def wfV : Value → Bool
  | .vstr _ => true
  | .vint _ => true
  | .vbool _ => true
  | .vlist xs => wfL xs
  | .vdict es => nodupKeys es.keys && es.keys.all goodKey && wfD es
def wfL : VList → Bool
  | .nil => true
  | .cons x xs => wfV x && wfL xs
def wfD : VDict → Bool
  | .nil => true
  | .cons _ v es => wfV v && wfD es
end

/-- Rebuild a dot-path from segments (left inverse of `splitDot` on
dot-free segments). -/
def joinDots : List String → String
  | [] => ""
  | s :: rest => rest.foldl (fun a b => a ++ "." ++ b) s

/-- What the diff claim asserts a recorded side-value must be: the value
the tree holds at the path, or the `"MISSING"` sentinel when the path is
absent. -/
def valMatch (root : Value) (segs : List String) (x : Value) : Prop :=
  getSegs root segs = .ok x ∨ (getSegs root segs = .error .keyError ∧ x = .vstr "MISSING")

/-- A sample environment lookup used by concrete witnesses. -/
def envW : String → Option String := fun n => if n == "HOME" then some "/root" else none

/-- The empty environment lookup (no variable set). -/
def envNone : String → Option String := fun _ => none

/-- Every value of a dict is itself a dict. -/
def dictValuesAreDicts : VDict → Bool
  | .nil => true
  | .cons _ v rest =>
    (match v with
     | .vdict _ => true
     | _ => false) && dictValuesAreDicts rest

/-- The shape of trees on which the membership tests of the validator cannot
raise: a mapping whose top-level section values are mappings. -/
def sectionsAreMappings : Value → Bool
  | .vdict es => dictValuesAreDicts es
  | _ => false

/-- The format names accepted by `export_config` (case-insensitive). -/
def supportedFormat (fmt : String) : Bool :=
  pyLower fmt == "json" || pyLower fmt == "yaml" || pyLower fmt == "env"

/-- Whether an `Except` computation succeeded. -/
def exceptOk : Except PyErr α → Bool
  | .ok _ => true
  | .error _ => false

theorem VDict.lookup_set_self (k : String) (v : Value) :
    ∀ es : VDict, (es.set k v).lookup k = some v
  | .nil => by simp [VDict.set, VDict.lookup]
  | .cons k₁ v₁ rest => by
    by_cases h : k₁ = k
    · simp [VDict.set, h, VDict.lookup]
    · simp [VDict.set, h, VDict.lookup, VDict.lookup_set_self k v rest]

theorem getSegs_cons (t : Value) (k : String) (ks : List String) :
    getSegs t (k :: ks) = (pyIndex t k) >>= (fun v₁ => getSegs v₁ ks) := rfl

theorem except_bind_ok (a : α) (f : α → Except PyErr β) :
    (Except.ok a : Except PyErr α) >>= f = f a := rfl

theorem except_bind_error (e : PyErr) (f : α → Except PyErr β) :
    (Except.error e : Except PyErr α) >>= f = .error e := rfl

theorem setSegs_getSegs : ∀ (segs : List String) (t v t' : Value),
    setSegs t segs v = .ok t' → getSegs t' segs = .ok v
  | [], t, v, t', h => by cases t <;> simp [setSegs] at h
  | [k], t, v, t', h => by
    cases t with
    | vdict es =>
      simp only [setSegs, Except.ok.injEq] at h
      subst h
      rw [getSegs_cons]
      simp [pyIndex, VDict.lookup_set_self, except_bind_ok, getSegs]
    | vstr s => simp [setSegs] at h
    | vint n => simp [setSegs] at h
    | vbool b => simp [setSegs] at h
    | vlist xs => simp [setSegs] at h
  | k :: k₂ :: rest, t, v, t', h => by
    cases t with
    | vdict es =>
      cases hl : es.lookup k with
      | some child =>
        simp only [setSegs, hl] at h
        cases hs : setSegs child (k₂ :: rest) v with
        | error e => rw [hs] at h; simp [Except.map] at h
        | ok c =>
          rw [hs] at h
          simp only [Except.map, Except.ok.injEq] at h
          subst h
          have ih := setSegs_getSegs (k₂ :: rest) child v c hs
          rw [getSegs_cons]
          simp [pyIndex, VDict.lookup_set_self, except_bind_ok, ih]
      | none =>
        simp only [setSegs, hl] at h
        cases hs : setSegs (.vdict .nil) (k₂ :: rest) v with
        | error e => rw [hs] at h; simp [Except.map] at h
        | ok c =>
          rw [hs] at h
          simp only [Except.map, Except.ok.injEq] at h
          subst h
          have ih := setSegs_getSegs (k₂ :: rest) (.vdict .nil) v c hs
          rw [getSegs_cons]
          simp [pyIndex, VDict.lookup_set_self, except_bind_ok, ih]
    | vstr s => simp [setSegs] at h
    | vint n => simp [setSegs] at h
    | vbool b => simp [setSegs] at h
    | vlist xs => simp [setSegs] at h

theorem setSegs_empty_ok : ∀ (k : String) (ks : List String) (v : Value),
    ∃ c, setSegs (.vdict .nil) (k :: ks) v = .ok c
  | _, [], _ => ⟨_, rfl⟩
  | k, k₂ :: ks, v => by
    obtain ⟨c, hc⟩ := setSegs_empty_ok k₂ ks v
    exact ⟨.vdict (VDict.nil.set k c), by simp [setSegs, VDict.lookup, hc, Except.map]⟩

theorem setSegs_isOk : ∀ (segs : List String) (t v : Value),
    exceptOk (setSegs t segs v) = canSet t segs
  | [], t, v => by cases t <;> simp [setSegs, canSet, exceptOk]
  | [k], t, v => by cases t <;> simp [setSegs, canSet, exceptOk]
  | k :: k₂ :: rest, t, v => by
    cases t with
    | vdict es =>
      cases hl : es.lookup k with
      | some child =>
        have ih := setSegs_isOk (k₂ :: rest) child v
        simp only [setSegs, canSet, hl]
        cases hs : setSegs child (k₂ :: rest) v with
        | error e => rw [hs] at ih; simp [Except.map, exceptOk, ← ih]
        | ok c => rw [hs] at ih; simp [Except.map, exceptOk, ← ih]
      | none =>
        simp only [setSegs, canSet, hl]
        obtain ⟨c, hc⟩ := setSegs_empty_ok k₂ rest v
        simp [hc, Except.map, exceptOk]
    | vstr s => simp [setSegs, canSet, exceptOk]
    | vint n => simp [setSegs, canSet, exceptOk]
    | vbool b => simp [setSegs, canSet, exceptOk]
    | vlist xs => simp [setSegs, canSet, exceptOk]

/-- C1 (amended): setting then getting the same dot-path returns the set
value whenever the set succeeds, and the set succeeds exactly when the
descent meets only mappings or missing keys (so it never fails on
missing intermediates, in particular on the empty tree); when an
existing intermediate is a non-mapping the set raises `TypeError`
instead of replacing it. -/
theorem pathAccessor_set_get (t : Value) (segs : List String) (v : Value) :
    exceptOk (setSegs t segs v) = canSet t segs ∧
    ∀ t', setSegs t segs v = .ok t' → getSegs t' segs = .ok v :=
  ⟨setSegs_isOk segs t v, fun t' h => setSegs_getSegs segs t v t' h⟩

/-- C1 witness: on the empty tree and path `a.b.c`, set succeeds and get
returns the set value. -/
theorem pathAccessor_set_get_witness :
    canSet (.vdict .nil) (splitDot "a.b.c") = true ∧
    getSegs
      (.vdict (.cons "a" (.vdict (.cons "b" (.vdict (.cons "c" (.vint 7) .nil)) .nil)) .nil))
      (splitDot "a.b.c") = .ok (.vint 7) :=
  ⟨rfl, (pathAccessor_set_get (.vdict .nil) (splitDot "a.b.c") (.vint 7)).2 _ rfl⟩

/-- C1 counterexample: with the tree `{"a": 5}` and path `a.b`, set does
not replace the non-mapping intermediate with a mapping; it raises
`TypeError` (so the claimed universal get-after-set round trip fails). -/
theorem pathAccessor_counterexample :
    setSegs (.vdict (.cons "a" (.vint 5) .nil)) ["a", "b"] (.vint 7) = .error .typeError := rfl

theorem foldlM_isOk {α β : Type} (f : β → α → Except PyErr β)
    (h : ∀ b a, ∃ b₂, f b a = .ok b₂) : ∀ (l : List α) (b : β), ∃ b₂, l.foldlM f b = .ok b₂
  | [], b => ⟨b, rfl⟩
  | a :: l, b => by
    obtain ⟨b₂, hb⟩ := h b a
    obtain ⟨b₃, hb₃⟩ := foldlM_isOk f h l b₂
    exact ⟨b₃, by simp [List.foldlM, hb, hb₃, except_bind_ok]⟩

theorem containsKey_lookup (d : VDict) (k : String) (h : d.containsKey k = true) :
    ∃ w, d.lookup k = some w := by
  simpa [VDict.containsKey, Option.isSome_iff_exists] using h

theorem dictValues_lookup : ∀ (es : VDict), dictValuesAreDicts es = true →
    ∀ (k : String) (v : Value), es.lookup k = some v → ∃ d, v = .vdict d
  | .nil, _, k, v, hv => by simp [VDict.lookup] at hv
  | .cons k₁ v₁ rest, h, k, v, hv => by
    simp only [dictValuesAreDicts, Bool.and_eq_true] at h
    simp only [VDict.lookup] at hv
    by_cases hk : k₁ = k
    · rw [if_pos hk] at hv
      cases hv
      cases v₁ with
      | vdict d => exact ⟨d, rfl⟩
      | vstr s => simp at h
      | vint n => simp at h
      | vbool b => simp at h
      | vlist xs => simp at h
    · rw [if_neg hk] at hv
      exact dictValues_lookup rest h.2 k v hv

theorem checkSection_ok (es : VDict) (h : dictValuesAreDicts es = true)
    (sec : String) (keys : List String) : ∃ r, checkSection (.vdict es) sec keys = .ok r := by
  simp only [checkSection, pyIn, except_bind_ok]
  cases hp : es.containsKey sec with
  | false => exact ⟨_, rfl⟩
  | true =>
    simp only [Bool.not_true, if_neg (by simp : ¬((false : Bool) = true))]
    apply foldlM_isOk
    intro b a
    obtain ⟨w, hw⟩ := containsKey_lookup es sec hp
    obtain ⟨d, hd⟩ := dictValues_lookup es h sec w hw
    subst hd
    simp [pyIndex, hw, except_bind_ok, pyIn]

theorem dbProbe_ok (es : VDict) (h : dictValuesAreDicts es = true) :
    ∃ r, dbProbe (.vdict es) = .ok r := by
  simp only [dbProbe, pyIn, except_bind_ok]
  cases hdb : es.containsKey "database" with
  | false => exact ⟨_, rfl⟩
  | true =>
    obtain ⟨w, hw⟩ := containsKey_lookup es "database" hdb
    obtain ⟨d, hd⟩ := dictValues_lookup es h "database" w hw
    subst hd
    simp only [if_pos rfl, pyIndex, hw, except_bind_ok, pyIn]
    cases hport : d.containsKey "port" with
    | false => exact ⟨_, rfl⟩
    | true =>
      obtain ⟨p, hp⟩ := containsKey_lookup d "port" hport
      simp [hp, except_bind_ok]

theorem apiProbe_ok (es : VDict) (h : dictValuesAreDicts es = true) :
    ∃ r, apiProbe (.vdict es) = .ok r := by
  simp only [apiProbe, pyIn, except_bind_ok]
  cases hapi : es.containsKey "api" with
  | false => exact ⟨_, rfl⟩
  | true =>
    obtain ⟨w, hw⟩ := containsKey_lookup es "api" hapi
    obtain ⟨d, hd⟩ := dictValues_lookup es h "api" w hw
    subst hd
    simp only [if_pos rfl, pyIndex, hw, except_bind_ok, pyIn]
    cases ht : d.containsKey "timeout" with
    | false =>
      cases hd₂ : d.containsKey "debug" with
      | false => exact ⟨_, rfl⟩
      | true =>
        obtain ⟨q, hq⟩ := containsKey_lookup d "debug" hd₂
        simp [hq, except_bind_ok]
    | true =>
      obtain ⟨p, hp⟩ := containsKey_lookup d "timeout" ht
      cases hd₂ : d.containsKey "debug" with
      | false => simp [hp, except_bind_ok]
      | true =>
        obtain ⟨q, hq⟩ := containsKey_lookup d "debug" hd₂
        simp [hp, hq, except_bind_ok]

theorem typeChecks_ok (es : VDict) (h : dictValuesAreDicts es = true) :
    ∃ r, typeChecks (.vdict es) = .ok r := by
  obtain ⟨r₁, h₁⟩ := dbProbe_ok es h
  obtain ⟨r₂, h₂⟩ := apiProbe_ok es h
  exact ⟨r₁ ++ r₂, by simp [typeChecks, h₁, h₂, except_bind_ok]⟩

theorem validateConfig_ok_of (c : Value) (h : sectionsAreMappings c = true) :
    ∃ r, validateConfig c = .ok r := by
  cases c with
  | vdict es =>
    simp only [sectionsAreMappings] at h
    have hstruct : ∃ s, structuralErrors (.vdict es) = .ok s := by
      apply foldlM_isOk
      intro b a
      obtain ⟨r, hr⟩ := checkSection_ok es h a.1 a.2
      exact ⟨b ++ r, by simp [hr, except_bind_ok]⟩
    obtain ⟨s, hs⟩ := hstruct
    obtain ⟨t, htc⟩ := typeChecks_ok es h
    exact ⟨((s ++ t).isEmpty, s ++ t), by simp [validateConfig, hs, htc, except_bind_ok]⟩
  | vstr s => simp [sectionsAreMappings] at h
  | vint n => simp [sectionsAreMappings] at h
  | vbool b => simp [sectionsAreMappings] at h
  | vlist xs => simp [sectionsAreMappings] at h

theorem validateConfig_valid_iff (c : Value) (b : Bool) (errs : List String)
    (h : validateConfig c = .ok (b, errs)) : b = true ↔ errs = [] := by
  simp only [validateConfig] at h
  cases hF : structuralErrors c with
  | error e => rw [hF] at h; simp [except_bind_error] at h
  | ok s =>
    rw [hF] at h
    cases hT : typeChecks c with
    | error e => rw [hT] at h; simp [except_bind_ok, except_bind_error] at h
    | ok t =>
      rw [hT] at h
      simp only [except_bind_ok, pure, Except.pure, Except.ok.injEq, Prod.mk.injEq] at h
      obtain ⟨hb, he⟩ := h
      subst hb
      subst he
      simp [List.isEmpty_iff]

/-- C2 (amended): the validator returns (rather than raising) on every
tree whose top-level section values are all mappings, and whenever it
returns, `valid` is true exactly when the error list is empty; on a tree
with a non-mapping section value (such as an integer) it raises
`TypeError` instead of returning. -/
theorem validator_total (c : Value) :
    (sectionsAreMappings c = true → exceptOk (validateConfig c) = true) ∧
    (∀ b errs, validateConfig c = .ok (b, errs) → (b = true ↔ errs = [])) :=
  ⟨fun h => by obtain ⟨r, hr⟩ := validateConfig_ok_of c h; simp [hr, exceptOk],
   fun b errs h => validateConfig_valid_iff c b errs h⟩

/-- C2 witness: the development default has mapping sections, validates
without raising, and its `valid`/error-list relationship is as stated. -/
theorem validator_total_witness :
    exceptOk (validateConfig devConfig) = true ∧ (true = true ↔ ([] : List String) = []) :=
  ⟨(validator_total devConfig).1 rfl, (validator_total devConfig).2 true [] rfl⟩

/-- C2 counterexample: on the tree `{"database": 5}` the validator
raises `TypeError` (from `"host" not in 5`) instead of returning a
`(valid, errors)` pair, refuting totality as claimed. -/
theorem validator_counterexample :
    validateConfig (.vdict (.cons "database" (.vint 5) .nil)) = .error .typeError := rfl

theorem fsGet_fsSet (k k₁ : String) (v : Value) :
    ∀ l, fsGet k (fsSet k₁ v l) = if k₁ = k then some v else fsGet k l := by
  intro l
  induction l with
  | nil => by_cases h : k₁ = k <;> simp [fsSet, fsGet, h]
  | cons p rest ih =>
    obtain ⟨k₂, v₂⟩ := p
    by_cases h2 : k₂ = k₁ <;> by_cases hk : k₁ = k <;> by_cases hk2 : k₂ = k <;>
      simp_all [fsSet, fsGet]

theorem fsGet_fsSet_self (k : String) (v : Value) (l : List (String × Value)) :
    fsGet k (fsSet k v l) = some v := by simp [fsGet_fsSet]

/-- C3: whenever the validator reports a tree invalid, `save_config`
fails (returns `False`) before touching the file surface: the store
state is unchanged and the call emits no backup or file write. -/
theorem save_blocks_on_invalid (st : St) (env : String) (cfg : Value) (cb : Bool) (ts : String)
    (errs : List String) (h : validateConfig cfg = .ok (false, errs)) :
    saveConfig st env cfg cb ts = (false, st, []) := by
  simp [saveConfig, h]

/-- C3 witness: saving the empty tree (which is invalid) over an
existing environment leaves the store untouched. -/
theorem save_blocks_on_invalid_witness :
    saveConfig ⟨[("dev", devConfig)], []⟩ "dev" (.vdict .nil) true "20240101_000000" =
      (false, ⟨[("dev", devConfig)], []⟩, []) :=
  save_blocks_on_invalid ⟨[("dev", devConfig)], []⟩ "dev" (.vdict .nil) true "20240101_000000"
    ["Missing required section: database", "Missing required section: api",
     "Missing required section: features", "Missing required section: security"] rfl

/-- C4: a successful `save_config` over an environment that previously
held `T₁` (with backup requested) leaves a backup whose content is `T₁`,
and its write trace is exactly backup-write then file-write; a
successful `restore_backup` on an environment with a current file
likewise backs the current tree up before the destructive write. -/
theorem backup_before_overwrite :
    (∀ (st : St) (env : String) (T₁ T₂ : Value) (ts : String) (st' : St) (tr : List Ev),
      fsGet env st.configs = some T₁ →
      saveConfig st env T₂ true ts = (true, st', tr) →
      fsGet (backupName env ts) st'.backups = some T₁ ∧
        tr = [.backupWrite (backupName env ts) T₁, .fileWrite env T₂]) ∧
    (∀ (st : St) (env : String) (cur : Value) (tsR tsN : String) (st' : St) (tr : List Ev),
      fsGet env st.configs = some cur →
      restoreBackup st env tsR tsN = (true, st', tr) →
      ∃ c, tr = [.backupWrite (backupName env tsN) cur, .fileWrite env c] ∧
        fsGet env st'.configs = some c) := by
  constructor
  · intro st env T₁ T₂ ts st' tr h1 h2
    cases hv : validateConfig T₂ with
    | error e => simp [saveConfig, hv] at h2
    | ok pr =>
      obtain ⟨isValid, errs⟩ := pr
      cases isValid with
      | false => simp [saveConfig, hv] at h2
      | true =>
        have hcomp : saveConfig st env T₂ true ts =
            (true, ⟨fsSet env T₂ st.configs, fsSet (backupName env ts) T₁ st.backups⟩,
             [.backupWrite (backupName env ts) T₁, .fileWrite env T₂]) := by
          simp [saveConfig, hv, h1, createBackup]
        rw [hcomp] at h2
        injection h2 with hfst hsnd
        injection hsnd with hst htr
        subst hst
        subst htr
        exact ⟨by simp [fsGet_fsSet_self], rfl⟩
  · intro st env cur tsR tsN st' tr h1 h2
    cases hb : fsGet (backupName env tsR) st.backups with
    | none => simp [restoreBackup, hb] at h2
    | some b₀ =>
      by_cases he : backupName env tsN = backupName env tsR
      · have hcomp : restoreBackup st env tsR tsN =
            (true, ⟨fsSet env cur st.configs, fsSet (backupName env tsN) cur st.backups⟩,
             [.backupWrite (backupName env tsN) cur, .fileWrite env cur]) := by
          simp [restoreBackup, hb, createBackup, h1, fsGet_fsSet, he]
        rw [hcomp] at h2
        injection h2 with hfst hsnd
        injection hsnd with hst htr
        subst hst
        subst htr
        exact ⟨cur, rfl, by simp [fsGet_fsSet_self]⟩
      · have hcomp : restoreBackup st env tsR tsN =
            (true, ⟨fsSet env b₀ st.configs, fsSet (backupName env tsN) cur st.backups⟩,
             [.backupWrite (backupName env tsN) cur, .fileWrite env b₀]) := by
          simp [restoreBackup, hb, createBackup, h1, fsGet_fsSet, he]
        rw [hcomp] at h2
        injection h2 with hfst hsnd
        injection hsnd with hst htr
        subst hst
        subst htr
        exact ⟨b₀, rfl, by simp [fsGet_fsSet_self]⟩

/-- C4 witness: a concrete save-over-existing leaves a backup holding
the old tree, and a concrete restore emits backup-write before the
destructive write. -/
theorem backup_before_overwrite_witness :
    (fsGet (backupName "dev" "ts1")
        (St.mk [("dev", devConfig)] [(backupName "dev" "ts1", Value.vdict .nil)]).backups =
      some (.vdict .nil)) ∧
    ∃ c, ([Ev.backupWrite (backupName "dev" "ts2") (.vint 1), Ev.fileWrite "dev" (.vint 2)] =
        [Ev.backupWrite (backupName "dev" "ts2") (.vint 1), Ev.fileWrite "dev" c]) ∧
      fsGet "dev" (St.mk [("dev", Value.vint 2)]
        [(backupName "dev" "tsOld", .vint 2), (backupName "dev" "ts2", .vint 1)]).configs =
        some c :=
  ⟨(backup_before_overwrite.1 ⟨[("dev", .vdict .nil)], []⟩ "dev" (.vdict .nil) devConfig "ts1"
      (St.mk [("dev", devConfig)] [(backupName "dev" "ts1", Value.vdict .nil)])
      [Ev.backupWrite (backupName "dev" "ts1") (.vdict .nil), Ev.fileWrite "dev" devConfig]
      rfl rfl).1,
   backup_before_overwrite.2 ⟨[("dev", .vint 1)], [(backupName "dev" "tsOld", .vint 2)]⟩
      "dev" (.vint 1) "tsOld" "ts2"
      (St.mk [("dev", Value.vint 2)]
        [(backupName "dev" "tsOld", .vint 2), (backupName "dev" "ts2", .vint 1)])
      [Ev.backupWrite (backupName "dev" "ts2") (.vint 1), Ev.fileWrite "dev" (.vint 2)]
      rfl rfl⟩

theorem pyIndex_error (t : Value) (k : String) (e : PyErr) (h : pyIndex t k = .error e) :
    e = .keyError ∨ e = .typeError := by
  cases t with
  | vdict es =>
    simp only [pyIndex] at h
    cases hl : es.lookup k with
    | some w => rw [hl] at h; simp at h
    | none => rw [hl] at h; injection h with h'; exact .inl h'.symm
  | vstr s => injection h with h'; exact .inr h'.symm
  | vint n => injection h with h'; exact .inr h'.symm
  | vbool b => injection h with h'; exact .inr h'.symm
  | vlist xs => injection h with h'; exact .inr h'.symm

theorem getSegs_error : ∀ (segs : List String) (t : Value) (e : PyErr),
    getSegs t segs = .error e → e = .keyError ∨ e = .typeError
  | [], t, e, h => by simp [getSegs] at h
  | k :: ks, t, e, h => by
    rw [getSegs_cons] at h
    cases hp : pyIndex t k with
    | error e₁ =>
      rw [hp, except_bind_error] at h
      injection h with h'
      exact h' ▸ pyIndex_error t k e₁ hp
    | ok v =>
      rw [hp, except_bind_ok] at h
      exact getSegs_error ks v e h

/-- C5 (amended): the store-level get returns absent (`None`) when the
environment file is missing or when a segment is absent from a mapping
(a `KeyError` during descent), and any error it does propagate is the
`TypeError` raised by subscripting a non-mapping intermediate — that
case is not converted to `None`. -/
theorem get_absent_handling (st : St) (lk : String → Option String) (env p : String) :
    (fsGet env st.configs = none → getConfigValue st lk env p = .ok none) ∧
    (∀ t, fsGet env st.configs = some t →
      getSegs (interpV lk t) (splitDot p) = .error .keyError →
      getConfigValue st lk env p = .ok none) ∧
    (∀ t v, fsGet env st.configs = some t →
      getSegs (interpV lk t) (splitDot p) = .ok v →
      getConfigValue st lk env p = .ok (some v)) ∧
    (∀ e, getConfigValue st lk env p = .error e → e = .typeError) := by
  refine ⟨fun h => ?_, fun t h hseg => ?_, fun t v h hseg => ?_, fun e h => ?_⟩
  · simp [getConfigValue, loadConfig, h, except_bind_error]
  · simp [getConfigValue, loadConfig, h, except_bind_ok, hseg]
  · simp [getConfigValue, loadConfig, h, except_bind_ok, hseg]
  · cases hload : fsGet env st.configs with
    | none => simp [getConfigValue, loadConfig, hload, except_bind_error] at h
    | some t =>
      cases hseg : getSegs (interpV lk t) (splitDot p) with
      | ok v => simp [getConfigValue, loadConfig, hload, except_bind_ok, hseg] at h
      | error e₁ =>
        rcases getSegs_error _ _ _ hseg with hk | ht
        · subst hk
          simp [getConfigValue, loadConfig, hload, except_bind_ok, hseg] at h
        · subst ht
          simp only [getConfigValue, loadConfig, hload, except_bind_ok, hseg] at h
          injection h with h'
          exact h'.symm

/-- C5 witness: absent file, absent key, and present key on a concrete
store each behave as the amended claim states. -/
theorem get_absent_handling_witness :
    getConfigValue ⟨[], []⟩ envNone "dev" "a.b" = .ok none ∧
    getConfigValue ⟨[("dev", .vdict (.cons "a" (.vint 5) .nil))], []⟩ envNone "dev" "x" =
      .ok none ∧
    getConfigValue ⟨[("dev", .vdict (.cons "a" (.vint 5) .nil))], []⟩ envNone "dev" "a" =
      .ok (some (.vint 5)) ∧
    PyErr.typeError = PyErr.typeError :=
  ⟨(get_absent_handling ⟨[], []⟩ envNone "dev" "a.b").1 rfl,
   (get_absent_handling ⟨[("dev", .vdict (.cons "a" (.vint 5) .nil))], []⟩ envNone "dev" "x").2.1
     (.vdict (.cons "a" (.vint 5) .nil)) rfl rfl,
   (get_absent_handling ⟨[("dev", .vdict (.cons "a" (.vint 5) .nil))], []⟩ envNone "dev"
     "a").2.2.1 (.vdict (.cons "a" (.vint 5) .nil)) (.vint 5) rfl rfl,
   (get_absent_handling ⟨[("dev", .vdict (.cons "a" (.vint 5) .nil))], []⟩ envNone "dev"
     "a.b").2.2.2 .typeError rfl⟩

/-- C5 counterexample: with `{"a": 5}` stored, getting `a.b` raises
`TypeError` to the caller instead of returning absent, refuting the
claim that a non-mapping intermediate yields `None`. -/
theorem get_absent_counterexample :
    getConfigValue ⟨[("dev", .vdict (.cons "a" (.vint 5) .nil))], []⟩ envNone "dev" "a.b" =
      .error .typeError := rfl

theorem placeholder_chars_iff (l : List Char) :
    (['$', '\x7b'].isPrefixOf l && ['\x7d'].isSuffixOf l) = true ↔
      ∃ m : List Char, l = '$' :: '\x7b' :: (m ++ ['\x7d']) := by
  constructor
  · intro h
    rw [Bool.and_eq_true] at h
    obtain ⟨hpre, hsuf⟩ := h
    rw [List.isPrefixOf_iff_prefix] at hpre
    rw [List.isSuffixOf_iff_suffix] at hsuf
    obtain ⟨t, ht⟩ := hpre
    obtain ⟨u, hu⟩ := hsuf
    subst ht
    cases u with
    | nil => simp at hu
    | cons a u₁ =>
      cases u₁ with
      | nil => simp at hu
      | cons b u₂ =>
        simp only [List.cons_append, List.nil_append, List.cons.injEq] at hu
        obtain ⟨ha, hb, ht₂⟩ := hu
        exact ⟨u₂, by simp [← ht₂]⟩
  · rintro ⟨m, rfl⟩
    rw [Bool.and_eq_true]
    constructor
    · rw [List.isPrefixOf_iff_prefix]
      exact ⟨m ++ ['\x7d'], rfl⟩
    · rw [List.isSuffixOf_iff_suffix]
      exact ⟨'$' :: '\x7b' :: m, by simp⟩

theorem placeholder_check_iff (s : String) :
    (pyStartswith s "$\x7b" && pyEndswith s "\x7d") = true ↔
      ∃ n : String, s = "$\x7b" ++ n ++ "\x7d" := by
  simp only [pyStartswith, pyEndswith]
  rw [placeholder_chars_iff]
  constructor
  · rintro ⟨m, hm⟩
    refine ⟨String.mk m, ?_⟩
    obtain ⟨l⟩ := s
    show String.mk l = "$\x7b" ++ String.mk m ++ "\x7d"
    rw [show l = '$' :: '\x7b' :: (m ++ ['\x7d']) from hm]
    rfl
  · rintro ⟨n, rfl⟩
    exact ⟨n.data, by simp [String.data_append]⟩

theorem pySlice2m1_pattern (n : String) : pySlice2m1 ("$\x7b" ++ n ++ "\x7d") = n := by
  simp only [pySlice2m1]
  rw [show ("$\x7b" ++ n ++ "\x7d").data = '$' :: '\x7b' :: (n.data ++ ['\x7d']) from by
    simp [String.data_append]]
  simp only [List.drop_succ_cons, List.drop_zero, List.dropLast_concat]

theorem interpS_hit (lk : String → Option String) (n val : String) (h : lk n = some val) :
    interpS lk ("$\x7b" ++ n ++ "\x7d") = val := by
  unfold interpS
  rw [if_pos ((placeholder_check_iff _).mpr ⟨n, rfl⟩), pySlice2m1_pattern, h]

theorem interpS_miss (lk : String → Option String) (n : String) (h : lk n = none) :
    interpS lk ("$\x7b" ++ n ++ "\x7d") = "$\x7b" ++ n ++ "\x7d" := by
  unfold interpS
  rw [if_pos ((placeholder_check_iff _).mpr ⟨n, rfl⟩), pySlice2m1_pattern, h]

theorem interpS_nomatch (lk : String → Option String) (s : String)
    (h : ¬ ∃ n, s = "$\x7b" ++ n ++ "\x7d") : interpS lk s = s := by
  unfold interpS
  rw [if_neg (fun hc => h ((placeholder_check_iff s).mp hc))]

/-- C6: interpolation substitutes a string exactly when it is the whole
pattern `${NAME}`: with `NAME` bound the whole string becomes the bound
value, with `NAME` unbound it is returned unchanged, any string not of
that exact shape is returned unchanged, non-string scalars pass through,
and mappings and sequences are rebuilt element-wise. -/
theorem interpolation_exact (lk : String → Option String) :
    (∀ n val, lk n = some val → interpV lk (.vstr ("$\x7b" ++ n ++ "\x7d")) = .vstr val) ∧
    (∀ n, lk n = none →
      interpV lk (.vstr ("$\x7b" ++ n ++ "\x7d")) = .vstr ("$\x7b" ++ n ++ "\x7d")) ∧
    (∀ s, (¬ ∃ n, s = "$\x7b" ++ n ++ "\x7d") → interpV lk (.vstr s) = .vstr s) ∧
    (∀ i : Int, interpV lk (.vint i) = .vint i) ∧
    (∀ b : Bool, interpV lk (.vbool b) = .vbool b) ∧
    (∀ xs, interpV lk (.vlist xs) = .vlist (interpL lk xs)) ∧
    (∀ es, interpV lk (.vdict es) = .vdict (interpD lk es)) :=
  ⟨fun n val h => by rw [show interpV lk (.vstr ("$\x7b" ++ n ++ "\x7d")) =
      .vstr (interpS lk ("$\x7b" ++ n ++ "\x7d")) from rfl, interpS_hit lk n val h],
   fun n h => by rw [show interpV lk (.vstr ("$\x7b" ++ n ++ "\x7d")) =
      .vstr (interpS lk ("$\x7b" ++ n ++ "\x7d")) from rfl, interpS_miss lk n h],
   fun s h => by rw [show interpV lk (.vstr s) = .vstr (interpS lk s) from rfl,
      interpS_nomatch lk s h],
   fun _ => rfl, fun _ => rfl, fun _ => rfl, fun _ => rfl⟩

/-- C6 witness: with `HOME` bound and `UNSET_VAR` unbound, `${HOME}` is
replaced, `${UNSET_VAR}` and a plain string are unchanged. -/
theorem interpolation_exact_witness :
    interpV envW (.vstr "$\x7bHOME\x7d") = .vstr "/root" ∧
    interpV envW (.vstr "$\x7bUNSET_VAR\x7d") = .vstr "$\x7bUNSET_VAR\x7d" ∧
    interpV envW (.vstr "plain") = .vstr "plain" :=
  ⟨(interpolation_exact envW).1 "HOME" "/root" rfl,
   (interpolation_exact envW).2.1 "UNSET_VAR" rfl,
   (interpolation_exact envW).2.2.1 "plain" (by
      rintro ⟨n, hn⟩
      have hd := congrArg String.data hn
      simp [String.data_append] at hd)⟩

/-- C7 (amended): on a loadable environment, an unsupported format makes
the body of `export_config` raise `ValueError` (`UnsupportedFormat`),
but the surrounding handler converts every error into the empty string,
so nothing propagates to the caller. -/
theorem export_unsupported (st : St) (lk : String → Option String) (env fmt : String)
    (h1 : (fsGet env st.configs).isSome = true) (h2 : supportedFormat fmt = false) :
    exportBody st lk env fmt = .error .valueError ∧ exportConfig st lk env fmt = "" := by
  obtain ⟨t, ht⟩ := Option.isSome_iff_exists.mp h1
  simp only [supportedFormat, Bool.or_eq_false_iff] at h2
  have hbody : exportBody st lk env fmt = .error .valueError := by
    simp [exportBody, loadConfig, ht, except_bind_ok, h2.1.1, h2.1.2, h2.2]
  exact ⟨hbody, by simp [exportConfig, hbody]⟩

/-- C7 witness: exporting an existing environment in format `xml` hits
the internal `ValueError` and the caller receives `""`. -/
theorem export_unsupported_witness :
    exportBody ⟨[("dev", .vdict .nil)], []⟩ envNone "dev" "xml" = .error .valueError ∧
    exportConfig ⟨[("dev", .vdict .nil)], []⟩ envNone "dev" "xml" = "" :=
  export_unsupported ⟨[("dev", .vdict .nil)], []⟩ envNone "dev" "xml" rfl rfl

/-- C7 counterexample: `export_config` with format `xml` returns the
ordinary value `""` — the `UnsupportedFormat` failure is swallowed, not
propagated as a typed failure. -/
theorem export_counterexample :
    exportConfig ⟨[("dev", .vdict .nil)], []⟩ envNone "dev" "xml" = "" ∧
    exportBody ⟨[("dev", .vdict .nil)], []⟩ envNone "dev" "xml" = .error .valueError :=
  ⟨rfl, rfl⟩

mutual
theorem interpV_id (lk : String → Option String) :
    ∀ v : Value, placeholderFreeV v = true → interpV lk v = v
  | .vstr s, h => by
    have hc : (pyStartswith s "$\x7b" && pyEndswith s "\x7d") = false := by
      cases hb : (pyStartswith s "$\x7b" && pyEndswith s "\x7d") with
      | false => rfl
      | true => simp [placeholderFreeV, hb] at h
    simp [interpV, interpS, hc]
  | .vint n, _ => rfl
  | .vbool b, _ => rfl
  | .vlist xs, h => by
    simp only [interpV, Value.vlist.injEq]
    exact interpL_id lk xs (by simpa [placeholderFreeV] using h)
  | .vdict es, h => by
    simp only [interpV, Value.vdict.injEq]
    exact interpD_id lk es (by simpa [placeholderFreeV] using h)
theorem interpL_id (lk : String → Option String) :
    ∀ xs : VList, placeholderFreeL xs = true → interpL lk xs = xs
  | .nil, _ => rfl
  | .cons x xs, h => by
    rw [placeholderFreeL, Bool.and_eq_true] at h
    simp [interpL, interpV_id lk x h.1, interpL_id lk xs h.2]
theorem interpD_id (lk : String → Option String) :
    ∀ es : VDict, placeholderFreeD es = true → interpD lk es = es
  | .nil, _ => rfl
  | .cons k v es, h => by
    rw [placeholderFreeD, Bool.and_eq_true] at h
    simp [interpD, interpV_id lk v h.1, interpD_id lk es h.2]
end

theorem saveConfig_true (st : St) (env : String) (cfg : Value) (cb : Bool) (ts : String)
    (st' : St) (tr : List Ev) (h : saveConfig st env cfg cb ts = (true, st', tr)) :
    st'.configs = fsSet env cfg st.configs := by
  cases hv : validateConfig cfg with
  | error e => simp [saveConfig, hv] at h
  | ok pr =>
    obtain ⟨isValid, errs⟩ := pr
    cases isValid with
    | false => simp [saveConfig, hv] at h
    | true =>
      cases hg : fsGet env st.configs with
      | none =>
        have hcomp : saveConfig st env cfg cb ts =
            (true, ⟨fsSet env cfg st.configs, st.backups⟩, [.fileWrite env cfg]) := by
          simp [saveConfig, hv, hg]
        rw [hcomp] at h
        injection h with h1 h2
        injection h2 with hst htr
        subst hst
        rfl
      | some T₁ =>
        cases cb with
        | false =>
          have hcomp : saveConfig st env cfg false ts =
              (true, ⟨fsSet env cfg st.configs, st.backups⟩, [.fileWrite env cfg]) := by
            simp [saveConfig, hv, hg]
          rw [hcomp] at h
          injection h with h1 h2
          injection h2 with hst htr
          subst hst
          rfl
        | true =>
          have hcomp : saveConfig st env cfg true ts =
              (true, ⟨fsSet env cfg st.configs, fsSet (backupName env ts) T₁ st.backups⟩,
               [.backupWrite (backupName env ts) T₁, .fileWrite env cfg]) := by
            simp [saveConfig, hv, hg, createBackup]
          rw [hcomp] at h
          injection h with h1 h2
          injection h2 with hst htr
          subst hst
          rfl

/-- C9: after a successful save, the stored document is the saved tree
verbatim (placeholders kept), a following load returns exactly its
interpolation, and when the tree holds no placeholder-shaped string the
load returns a tree structurally equal to the saved one. -/
theorem save_load_round_trip (st : St) (env : String) (T : Value) (cb : Bool) (ts : String)
    (st' : St) (tr : List Ev) (lk : String → Option String)
    (h : saveConfig st env T cb ts = (true, st', tr)) :
    fsGet env st'.configs = some T ∧
    loadConfig st' lk env = .ok (interpV lk T) ∧
    (placeholderFreeV T = true → loadConfig st' lk env = .ok T) := by
  have hc := saveConfig_true st env T cb ts st' tr h
  have hget : fsGet env st'.configs = some T := by
    rw [hc]
    exact fsGet_fsSet_self env T st.configs
  refine ⟨hget, by simp [loadConfig, hget], fun hpf => ?_⟩
  simp [loadConfig, hget, interpV_id lk T hpf]

/-- C9 witness: saving the development default into an empty store and
loading it back returns the identical tree. -/
theorem save_load_round_trip_witness :
    loadConfig (St.mk [("dev", devConfig)] []) envW "dev" = .ok devConfig :=
  (save_load_round_trip ⟨[], []⟩ "dev" devConfig true "ts" (St.mk [("dev", devConfig)] [])
    [.fileWrite "dev" devConfig] envW rfl).2.2 rfl

/-- C10: each built-in bootstrap default configuration (development,
testing, production) passes the validator with `valid = true` and an
empty error list. -/
theorem defaults_validate :
    validateConfig devConfig = .ok (true, []) ∧
    validateConfig testingConfig = .ok (true, []) ∧
    validateConfig productionConfig = .ok (true, []) :=
  ⟨rfl, rfl, rfl⟩

theorem containsKey_iff_mem_keys (k : String) :
    ∀ d : VDict, d.containsKey k = true ↔ k ∈ d.keys
  | .nil => by simp [VDict.containsKey, VDict.lookup, VDict.keys]
  | .cons k₁ v rest => by
    by_cases h : k₁ = k
    · simp [VDict.containsKey, VDict.lookup, VDict.keys, h]
    · simp only [VDict.containsKey, VDict.lookup, if_neg h, VDict.keys, List.mem_cons]
      rw [← VDict.containsKey]
      rw [containsKey_iff_mem_keys k rest]
      simp [Ne.symm h]

theorem lookup_none_of_not_containsKey (k : String) (d : VDict)
    (h : d.containsKey k = false) : d.lookup k = none := by
  rw [VDict.containsKey] at h
  cases hl : d.lookup k with
  | none => rfl
  | some w => rw [hl] at h; simp at h

theorem length_eq_keys_length : ∀ d : VDict, d.length = d.keys.length
  | .nil => rfl
  | .cons k v rest => by simp [VDict.length, VDict.keys, length_eq_keys_length rest, Nat.add_comm]

theorem nodupKeys_iff : ∀ l : List String, nodupKeys l = true ↔ l.Nodup
  | [] => by simp [nodupKeys]
  | k :: ks => by
    simp only [nodupKeys, Bool.and_eq_true, Bool.not_eq_true', List.nodup_cons,
      nodupKeys_iff ks, and_congr_left_iff]
    intro _
    constructor
    · intro hc hm
      have : ks.contains k = true := List.elem_iff.mpr hm
      rw [this] at hc
      cases hc
    · intro hm
      cases hc : ks.contains k with
      | false => rfl
      | true => exact absurd (List.elem_iff.mp hc) hm

theorem wfV_dict_parts (d : VDict) (h : wfV (.vdict d) = true) :
    nodupKeys d.keys = true ∧ d.keys.all goodKey = true ∧ wfD d = true := by
  simpa [wfV, Bool.and_eq_true, and_assoc] using h

theorem wfD_lookup (k : String) : ∀ d : VDict, wfD d = true →
    ∀ v, d.lookup k = some v → wfV v = true
  | .nil, _, v, hv => by simp [VDict.lookup] at hv
  | .cons k₁ v₁ rest, h, v, hv => by
    rw [wfD, Bool.and_eq_true] at h
    simp only [VDict.lookup] at hv
    by_cases hk : k₁ = k
    · rw [if_pos hk] at hv
      cases hv
      exact h.1
    · rw [if_neg hk] at hv
      exact wfD_lookup k rest h.2 v hv

theorem wf_dict_cons (k : String) (v : Value) (rest : VDict)
    (h : wfV (.vdict (.cons k v rest)) = true) :
    wfV v = true ∧ wfV (.vdict rest) = true ∧ goodKey k = true := by
  obtain ⟨hn, hg, hd⟩ := wfV_dict_parts _ h
  rw [show (VDict.cons k v rest).keys = k :: rest.keys from rfl] at hn hg
  rw [nodupKeys, Bool.and_eq_true] at hn
  rw [List.all_cons, Bool.and_eq_true] at hg
  rw [wfD, Bool.and_eq_true] at hd
  refine ⟨hd.1, ?_, hg.1⟩
  simp [wfV, Bool.and_eq_true, hn.2, hg.2, hd.2]

theorem pyEqD_keys_subset : ∀ (x y : VDict), pyEqD x y = true →
    ∀ k ∈ x.keys, y.containsKey k = true
  | .nil, y, _, k, hk => by simp [VDict.keys] at hk
  | .cons k₁ v rest, y, h, k, hk => by
    rw [pyEqD, Bool.and_eq_true] at h
    rw [show (VDict.cons k₁ v rest).keys = k₁ :: rest.keys from rfl, List.mem_cons] at hk
    cases hk with
    | inl he =>
      subst he
      cases hl : y.lookup k with
      | none => rw [hl] at h; simp at h
      | some w => simp [VDict.containsKey, hl]
    | inr hm => exact pyEqD_keys_subset rest y h.2 k hm

theorem nodup_subset_reverse (l₁ l₂ : List String) (h1 : l₁.Nodup) (h2 : l₂.Nodup)
    (hs : ∀ x ∈ l₁, x ∈ l₂) (hl : l₁.length = l₂.length) : ∀ x ∈ l₂, x ∈ l₁ := by
  have hsub : l₁.toFinset ⊆ l₂.toFinset := by
    intro x hx
    simp only [List.mem_toFinset] at hx ⊢
    exact hs x hx
  have hcard : l₂.toFinset.card ≤ l₁.toFinset.card := by
    rw [List.toFinset_card_of_nodup h1, List.toFinset_card_of_nodup h2, hl]
  have heq : l₁.toFinset = l₂.toFinset := Finset.eq_of_subset_of_card_le hsub hcard
  intro x hx
  have : x ∈ l₁.toFinset := by rw [heq]; simpa using hx
  simpa using this

theorem diffPass2_empty_iff : ∀ (d2cur d1 : VDict) (p : String),
    diffPass2 d2cur d1 p = [] ↔ ∀ k ∈ d2cur.keys, d1.containsKey k = true
  | .nil, d1, p => by simp [diffPass2, VDict.keys]
  | .cons k w rest, d1, p => by
    rw [diffPass2, List.append_eq_nil, diffPass2_empty_iff rest d1 p]
    rw [show (VDict.cons k w rest).keys = k :: rest.keys from rfl]
    constructor
    · rintro ⟨hh, ht⟩ k₂ hk₂
      rw [List.mem_cons] at hk₂
      cases hk₂ with
      | inl he =>
        subst he
        cases hc : d1.containsKey k₂ with
        | true => rfl
        | false => rw [hc] at hh; simp at hh
      | inr hm => exact ht k₂ hm
    · intro hall
      refine ⟨?_, fun k₂ hm => hall k₂ (List.mem_cons_of_mem _ hm)⟩
      rw [hall k (List.mem_cons_self k rest.keys)]
      simp

theorem getSegs_single (t : Value) (k : String) : getSegs t [k] = pyIndex t k := by
  cases hp : pyIndex t k <;>
    simp [getSegs_cons, hp, except_bind_ok, except_bind_error, getSegs]

theorem getSegs_snoc : ∀ (segs : List String) (t u : Value) (k : String),
    getSegs t segs = .ok u → getSegs t (segs ++ [k]) = pyIndex u k
  | [], t, u, k, h => by
    simp only [getSegs] at h
    injection h with h₁
    subst h₁
    simp [getSegs_single]
  | k₁ :: ks, t, u, k, h => by
    rw [getSegs_cons] at h
    cases hp : pyIndex t k₁ with
    | error e => rw [hp, except_bind_error] at h; cases h
    | ok v =>
      rw [hp, except_bind_ok] at h
      rw [show (k₁ :: ks) ++ [k] = k₁ :: (ks ++ [k]) from rfl, getSegs_cons, hp, except_bind_ok]
      exact getSegs_snoc ks v u k h

theorem string_ne_empty_length (s : String) (h : s ≠ "") : 1 ≤ s.length := by
  obtain ⟨l⟩ := s
  cases l with
  | nil => exact absurd rfl h
  | cons c cs =>
    show 1 ≤ (c :: cs).length
    simp

theorem foldl_dot_length : ∀ (rest : List String) (a : String),
    a.length ≤ (rest.foldl (fun x b => x ++ "." ++ b) a).length
  | [], _ => le_refl _
  | b :: rest, a => by
    refine le_trans ?_ (foldl_dot_length rest (a ++ "." ++ b))
    simp [String.length_append]
    omega

theorem joinDots_cons_ne_empty (s : String) (rest : List String) (h : s ≠ "") :
    joinDots (s :: rest) ≠ "" := by
  intro hc
  have h1 := foldl_dot_length rest s
  rw [show joinDots (s :: rest) = rest.foldl (fun x b => x ++ "." ++ b) s from rfl] at hc
  rw [hc] at h1
  have h2 := string_ne_empty_length s h
  rw [show ("" : String).length = 0 from rfl] at h1
  omega

theorem joinDots_snoc (segs : List String) (k : String) (h : ∀ s ∈ segs, s ≠ "") :
    joinPath (joinDots segs) k = joinDots (segs ++ [k]) := by
  cases segs with
  | nil => simp [joinPath, joinDots]
  | cons s rest =>
    have hne : joinDots (s :: rest) ≠ "" :=
      joinDots_cons_ne_empty s rest (h s (List.mem_cons_self s rest))
    rw [joinPath, if_neg hne]
    show joinDots (s :: rest) ++ "." ++ k = joinDots ((s :: rest) ++ [k])
    rw [show (s :: rest) ++ [k] = s :: (rest ++ [k]) from rfl]
    show _ = (rest ++ [k]).foldl (fun x b => x ++ "." ++ b) s
    rw [List.foldl_append]
    rfl

theorem diffPass1_cons (k : String) (v : Value) (rest d2 : VDict) (p : String) :
    diffPass1 (.cons k v rest) d2 p =
      (match d2.lookup k with
       | none => [(joinPath p k, (v, .vstr "MISSING"))]
       | some w =>
         match v, w with
         | .vdict x, .vdict y =>
           diffPass1 x y (joinPath p k) ++ diffPass2 y x (joinPath p k)
         | _, _ => if pyEqV v w then [] else [(joinPath p k, (v, w))])
      ++ diffPass1 rest d2 p := by
  simp only [diffPass1]

theorem diffAux : ∀ (n : Nat) (d1 d2 : VDict) (p : String),
    sizeOf d1 ≤ n → wfV (.vdict d1) = true → wfV (.vdict d2) = true →
    ((diffPass1 d1 d2 p = [] ↔ pyEqD d1 d2 = true) ∧
     ((diffPass1 d1 d2 p = [] ∧ diffPass2 d2 d1 p = []) ↔
       pyEqV (.vdict d1) (.vdict d2) = true)) := by
  intro n
  induction n with
  | zero =>
    intro d1 d2 p hsz _ _
    exact absurd hsz (by cases d1 <;> simp)
  | succ n ih =>
    intro d1 d2 p hsz hw1 hw2
    have part1 : diffPass1 d1 d2 p = [] ↔ pyEqD d1 d2 = true := by
      cases d1 with
      | nil => simp [diffPass1, pyEqD]
      | cons k v rest =>
        obtain ⟨hv, hrest, hgk⟩ := wf_dict_cons k v rest hw1
        have hszr : sizeOf rest ≤ n := by simp at hsz; omega
        have tailIff := (ih rest d2 p hszr hrest hw2).1
        cases hl : d2.lookup k with
        | none => simp [diffPass1_cons, hl, pyEqD]
        | some w =>
          cases v with
          | vdict x =>
            cases w with
            | vdict y =>
              have hx : sizeOf x ≤ n := by simp at hsz; omega
              have hwy : wfV (.vdict y) = true :=
                wfD_lookup k d2 (wfV_dict_parts d2 hw2).2.2 _ hl
              have nested := (ih x y (joinPath p k) hx hv hwy).2
              rw [diffPass1_cons, hl]
              simp only [List.append_eq_nil, pyEqD, hl, Bool.and_eq_true, tailIff]
              exact and_congr_left (fun _ => nested)
            | vstr s => simp [diffPass1_cons, hl, pyEqD, pyEqV, tailIff]
            | vint m => simp [diffPass1_cons, hl, pyEqD, pyEqV, tailIff]
            | vbool b => simp [diffPass1_cons, hl, pyEqD, pyEqV, tailIff]
            | vlist ys => simp [diffPass1_cons, hl, pyEqD, pyEqV, tailIff]
          | vstr s =>
            cases hpe : pyEqV (.vstr s) w <;>
              cases w <;> simp_all [diffPass1_cons, hl, pyEqD, tailIff]
          | vint m =>
            cases hpe : pyEqV (.vint m) w <;>
              cases w <;> simp_all [diffPass1_cons, hl, pyEqD, tailIff]
          | vbool b =>
            cases hpe : pyEqV (.vbool b) w <;>
              cases w <;> simp_all [diffPass1_cons, hl, pyEqD, tailIff]
          | vlist xs =>
            cases hpe : pyEqV (.vlist xs) w <;>
              cases w <;> simp_all [diffPass1_cons, hl, pyEqD, tailIff]
    have part2 : (diffPass1 d1 d2 p = [] ∧ diffPass2 d2 d1 p = []) ↔
        pyEqV (.vdict d1) (.vdict d2) = true := by
      rw [part1, diffPass2_empty_iff]
      rw [show pyEqV (.vdict d1) (.vdict d2) =
        (VDict.length d1 == VDict.length d2 && pyEqD d1 d2) from rfl]
      rw [Bool.and_eq_true, beq_iff_eq, length_eq_keys_length, length_eq_keys_length]
      obtain ⟨hn1, hg1, hd1⟩ := wfV_dict_parts d1 hw1
      obtain ⟨hn2, hg2, hd2⟩ := wfV_dict_parts d2 hw2
      have hnd1 := (nodupKeys_iff _).mp hn1
      have hnd2 := (nodupKeys_iff _).mp hn2
      constructor
      · rintro ⟨heq, hsub⟩
        refine ⟨?_, heq⟩
        have hs12 : ∀ x ∈ d1.keys, x ∈ d2.keys := fun x hx =>
          (containsKey_iff_mem_keys x d2).mp (pyEqD_keys_subset d1 d2 heq x hx)
        have hs21 : ∀ x ∈ d2.keys, x ∈ d1.keys := fun x hx =>
          (containsKey_iff_mem_keys x d1).mp (hsub x hx)
        have hfin : d1.keys.toFinset = d2.keys.toFinset := by
          apply Finset.Subset.antisymm
          · intro x hx
            simp only [List.mem_toFinset] at hx ⊢
            exact hs12 x hx
          · intro x hx
            simp only [List.mem_toFinset] at hx ⊢
            exact hs21 x hx
        rw [← List.toFinset_card_of_nodup hnd1, ← List.toFinset_card_of_nodup hnd2, hfin]
      · rintro ⟨hlen, heq⟩
        refine ⟨heq, fun k hk => ?_⟩
        have hs12 : ∀ x ∈ d1.keys, x ∈ d2.keys := fun x hx =>
          (containsKey_iff_mem_keys x d2).mp (pyEqD_keys_subset d1 d2 heq x hx)
        have hrev := nodup_subset_reverse d1.keys d2.keys hnd1 hnd2 hs12 hlen
        exact (containsKey_iff_mem_keys k d1).mpr (hrev k hk)
    exact ⟨part1, part2⟩

theorem pass2Val : ∀ (d2cur d2full d1side : VDict) (A B : Value) (segs₀ : List String),
    (∀ k v, d2cur.lookup k = some v → d2full.lookup k = some v) →
    nodupKeys d2cur.keys = true →
    d2cur.keys.all goodKey = true →
    getSegs A segs₀ = .ok (.vdict d1side) →
    getSegs B segs₀ = .ok (.vdict d2full) →
    (∀ s ∈ segs₀, s ≠ "") →
    ∀ p a b, (p, (a, b)) ∈ diffPass2 d2cur d1side (joinDots segs₀) →
      ∃ segs, segs ≠ [] ∧ p = joinDots segs ∧ valMatch A segs a ∧ valMatch B segs b
  | .nil, _, _, _, _, _, _, _, _, _, _, _, p, a, b, hm => by simp [diffPass2] at hm
  | .cons k w rest, d2full, d1side, A, B, segs₀, hagree, hnd, hgood, hA, hB, hseg,
      p, a, b, hm => by
    simp only [diffPass2, List.mem_append] at hm
    rw [show (VDict.cons k w rest).keys = k :: rest.keys from rfl] at hnd hgood
    rw [nodupKeys, Bool.and_eq_true] at hnd
    rw [List.all_cons, Bool.and_eq_true] at hgood
    cases hm with
    | inl hh =>
      cases hc : d1side.containsKey k with
      | true => rw [hc] at hh; simp at hh
      | false =>
        rw [hc] at hh
        simp only [Bool.false_eq_true, if_false, List.mem_singleton, Prod.mk.injEq] at hh
        obtain ⟨hp, ha, hb⟩ := hh
        have hkne : k ≠ "" := by
          intro he
          rw [he] at hgood
          exact absurd hgood.1 (by decide)
        refine ⟨segs₀ ++ [k], by simp, ?_, ?_, ?_⟩
        · rw [hp, joinDots_snoc segs₀ k hseg]
        · right
          refine ⟨?_, ha⟩
          rw [getSegs_snoc segs₀ A _ k hA]
          simp [pyIndex, lookup_none_of_not_containsKey k d1side hc]
        · left
          have hw : d2full.lookup k = some w := hagree k w (by simp [VDict.lookup])
          rw [getSegs_snoc segs₀ B _ k hB]
          simp [pyIndex, hw, hb]
    | inr ht =>
      have hagree₂ : ∀ k₂ v, rest.lookup k₂ = some v → d2full.lookup k₂ = some v := by
        intro k₂ v hv
        apply hagree
        have hmem : k₂ ∈ rest.keys := (containsKey_iff_mem_keys k₂ rest).mp
          (by simp [VDict.containsKey, hv])
        have hkne : ¬(k = k₂) := by
          intro he
          subst he
          have hcont : rest.keys.contains k = true := List.elem_iff.mpr hmem
          have h₁ := hnd.1
          rw [hcont] at h₁
          cases h₁
        simp [VDict.lookup, hkne, hv]
      exact pass2Val rest d2full d1side A B segs₀ hagree₂ hnd.2 hgood.2 hA hB hseg p a b ht

theorem pass1Val : ∀ (n : Nat) (d1cur d1full d2full : VDict) (A B : Value)
    (segs₀ : List String),
    sizeOf d1cur ≤ n →
    (∀ k v, d1cur.lookup k = some v → d1full.lookup k = some v) →
    nodupKeys d1cur.keys = true →
    d1cur.keys.all goodKey = true →
    wfD d1cur = true →
    wfV (.vdict d2full) = true →
    getSegs A segs₀ = .ok (.vdict d1full) →
    getSegs B segs₀ = .ok (.vdict d2full) →
    (∀ s ∈ segs₀, s ≠ "") →
    ∀ p a b, (p, (a, b)) ∈ diffPass1 d1cur d2full (joinDots segs₀) →
      ∃ segs, segs ≠ [] ∧ p = joinDots segs ∧ valMatch A segs a ∧ valMatch B segs b := by
  intro n
  induction n with
  | zero =>
    intro d1cur d1full d2full A B segs₀ hsz
    exact absurd hsz (by cases d1cur <;> simp)
  | succ n ih =>
    intro d1cur d1full d2full A B segs₀ hsz hagree hnd hgood hwd hw2 hA hB hseg p a b hm
    cases d1cur with
    | nil => simp [diffPass1] at hm
    | cons k v rest =>
      rw [diffPass1_cons, List.mem_append] at hm
      rw [show (VDict.cons k v rest).keys = k :: rest.keys from rfl] at hnd hgood
      rw [nodupKeys, Bool.and_eq_true] at hnd
      rw [List.all_cons, Bool.and_eq_true] at hgood
      rw [wfD, Bool.and_eq_true] at hwd
      have hlk : d1full.lookup k = some v := hagree k v (by simp [VDict.lookup])
      have hkne : k ≠ "" := by
        intro he
        rw [he] at hgood
        exact absurd hgood.1 (by decide)
      have hseg₂ : ∀ s ∈ segs₀ ++ [k], s ≠ "" := by
        intro s hs
        rw [List.mem_append, List.mem_singleton] at hs
        cases hs with
        | inl h₁ => exact hseg s h₁
        | inr h₂ => exact h₂ ▸ hkne
      have hpath : joinPath (joinDots segs₀) k = joinDots (segs₀ ++ [k]) :=
        joinDots_snoc segs₀ k hseg
      cases hm with
      | inl hh =>
        split at hh
        next hl =>
          simp only [List.mem_singleton, Prod.mk.injEq] at hh
          obtain ⟨hp, ha, hb⟩ := hh
          refine ⟨segs₀ ++ [k], by simp, by rw [hp, hpath], ?_, ?_⟩
          · left
            rw [getSegs_snoc segs₀ A _ k hA]
            simp [pyIndex, hlk, ha]
          · right
            refine ⟨?_, hb⟩
            rw [getSegs_snoc segs₀ B _ k hB]
            simp [pyIndex, hl]
        next w hl =>
          have hA₂ : getSegs A (segs₀ ++ [k]) = pyIndex (.vdict d1full) k :=
            getSegs_snoc segs₀ A _ k hA
          have hB₂ : getSegs B (segs₀ ++ [k]) = pyIndex (.vdict d2full) k :=
            getSegs_snoc segs₀ B _ k hB
          split at hh
          next x y =>
            rw [hpath, List.mem_append] at hh
            have hAx : getSegs A (segs₀ ++ [k]) = .ok (.vdict x) := by
              rw [hA₂]; simp [pyIndex, hlk]
            have hBy : getSegs B (segs₀ ++ [k]) = .ok (.vdict y) := by
              rw [hB₂]; simp [pyIndex, hl]
            have hwx : wfV (.vdict x) = true := hwd.1
            have hwy : wfV (.vdict y) = true :=
              wfD_lookup k d2full (wfV_dict_parts d2full hw2).2.2 _ hl
            obtain ⟨hnx, hgx, hdx⟩ := wfV_dict_parts x hwx
            obtain ⟨hny, hgy, hdy⟩ := wfV_dict_parts y hwy
            cases hh with
            | inl h₁ =>
              have hx : sizeOf x ≤ n := by simp at hsz; omega
              exact ih x x y A B (segs₀ ++ [k]) hx (fun _ _ hv => hv) hnx hgx hdx hwy
                hAx hBy hseg₂ p a b h₁
            | inr h₂ =>
              exact pass2Val y y x A B (segs₀ ++ [k]) (fun _ _ hv => hv) hny hgy
                hAx hBy hseg₂ p a b h₂
          next =>
            split at hh
            next hpe => simp at hh
            next hpe =>
              simp only [List.mem_singleton, Prod.mk.injEq] at hh
              obtain ⟨hp, ha, hb⟩ := hh
              refine ⟨segs₀ ++ [k], by simp, by rw [hp, hpath], ?_, ?_⟩
              · left
                rw [hA₂]
                simp [pyIndex, hlk, ha]
              · left
                rw [hB₂]
                simp [pyIndex, hl, hb]
      | inr ht =>
        have hagree₂ : ∀ k₂ v₂, rest.lookup k₂ = some v₂ → d1full.lookup k₂ = some v₂ := by
          intro k₂ v₂ hv
          apply hagree
          have hmem : k₂ ∈ rest.keys := (containsKey_iff_mem_keys k₂ rest).mp
            (by simp [VDict.containsKey, hv])
          have hkne₂ : ¬(k = k₂) := by
            intro he
            subst he
            have hcont : rest.keys.contains k = true := List.elem_iff.mpr hmem
            have h₁ := hnd.1
            rw [hcont] at h₁
            cases h₁
          simp [VDict.lookup, hkne₂, hv]
        have hszr : sizeOf rest ≤ n := by simp at hsz; omega
        exact ih rest d1full d2full A B segs₀ hszr hagree₂ hnd.2 hgood.2 hwd.2 hw2
          hA hB hseg p a b ht

/-- C8 (amended): for trees whose keys are duplicate-free, nonempty and
dot-free at every level, the diff is empty exactly when the trees are
equal under Python value equality (where `True == 1`), and every
recorded entry sits at a dot-path addressing a location whose value in
the first tree is the entry's first component (or the path is absent
there and the component is the `"MISSING"` sentinel), and likewise for
the second tree. -/
theorem diff_correct (d1 d2 : VDict)
    (hw1 : wfV (.vdict d1) = true) (hw2 : wfV (.vdict d2) = true) :
    (compareDicts d1 d2 "" = [] ↔ pyEqV (.vdict d1) (.vdict d2) = true) ∧
    (∀ p a b, (p, (a, b)) ∈ compareDicts d1 d2 "" →
      ∃ segs, segs ≠ [] ∧ p = joinDots segs ∧
        valMatch (.vdict d1) segs a ∧ valMatch (.vdict d2) segs b) := by
  constructor
  · rw [compareDicts, List.append_eq_nil]
    exact (diffAux (sizeOf d1) d1 d2 "" (le_refl _) hw1 hw2).2
  · intro p a b hm
    rw [compareDicts, List.mem_append] at hm
    obtain ⟨hn1, hg1, hd1⟩ := wfV_dict_parts d1 hw1
    obtain ⟨hn2, hg2, hd2⟩ := wfV_dict_parts d2 hw2
    cases hm with
    | inl h₁ =>
      exact pass1Val (sizeOf d1) d1 d1 d2 (.vdict d1) (.vdict d2) [] (le_refl _)
        (fun _ _ hv => hv) hn1 hg1 hd1 hw2 rfl rfl (by simp) p a b h₁
    | inr h₂ =>
      exact pass2Val d2 d2 d1 (.vdict d1) (.vdict d2) [] (fun _ _ hv => hv) hn2 hg2
        rfl rfl (by simp) p a b h₂

/-- C8 witness: the amended statement applied to the concrete pair
`{"a": 1}` and `{"a": true}` (both well-formed). -/
theorem diff_correct_witness :
    (compareDicts (.cons "a" (.vint 1) .nil) (.cons "a" (.vbool true) .nil) "" = [] ↔
      pyEqV (.vdict (.cons "a" (.vint 1) .nil))
        (.vdict (.cons "a" (.vbool true) .nil)) = true) ∧
    (∀ p a b,
      (p, (a, b)) ∈ compareDicts (.cons "a" (.vint 1) .nil) (.cons "a" (.vbool true) .nil) "" →
      ∃ segs, segs ≠ [] ∧ p = joinDots segs ∧
        valMatch (.vdict (.cons "a" (.vint 1) .nil)) segs a ∧
        valMatch (.vdict (.cons "a" (.vbool true) .nil)) segs b) :=
  diff_correct (.cons "a" (.vint 1) .nil) (.cons "a" (.vbool true) .nil) rfl rfl

/-- C8 counterexample: with the dotted key `a.b`, the diff of
`{"a.b": 1}` against `{"a": {"b": 2}}` records `1` at path `a.b` on the
first side although dot-path resolution of `a.b` in that tree is absent
(so neither the value nor the `"MISSING"` sentinel matches the claim);
and `{"x": 1}` against `{"x": true}` yields an empty diff although the
trees differ, refuting non-emptiness iff structural inequality. -/
theorem diff_counterexample :
    ("a.b", (Value.vint 1, Value.vstr "MISSING")) ∈
      compareDicts (.cons "a.b" (.vint 1) .nil)
        (.cons "a" (.vdict (.cons "b" (.vint 2) .nil)) .nil) "" ∧
    getSegs (.vdict (.cons "a.b" (.vint 1) .nil)) (splitDot "a.b") = .error .keyError ∧
    (Value.vint 1 ≠ .vstr "MISSING") ∧
    compareDicts (.cons "x" (.vint 1) .nil) (.cons "x" (.vbool true) .nil) "" = [] ∧
    (Value.vdict (.cons "x" (.vint 1) .nil) ≠ .vdict (.cons "x" (.vbool true) .nil)) := by
  refine ⟨?_, rfl, by decide, ?_, by decide⟩
  · have h : compareDicts (.cons "a.b" (.vint 1) .nil)
        (.cons "a" (.vdict (.cons "b" (.vint 2) .nil)) .nil) "" =
        [("a.b", (.vint 1, .vstr "MISSING")),
         ("a", (.vstr "MISSING", .vdict (.cons "b" (.vint 2) .nil)))] := by
      simp [compareDicts, diffPass1, diffPass2, VDict.lookup, VDict.containsKey, joinPath]
    rw [h]
    exact List.mem_cons_self _ _
  · simp [compareDicts, diffPass1, diffPass2, VDict.lookup, VDict.containsKey, joinPath,
      pyEqV, VDict.length, pyEqD]
